import Mathlib

/-!
Verification of the admission-control router of the serverless-qdrant
repository: the endpoint tables and lambda wiring of the CDK stack
variants, the route classifier, and the directory-introspection parser
of lsLambda.ts, embedded shallowly and checked against the design
specification.
-/

set_option autoImplicit false

namespace ServerlessQdrant

/-- HTTP methods used by the route tables (aws-apigatewayv2 HttpMethod). -/
inductive HttpMethod where
  | GET
  | POST
  | PUT
  | DELETE
deriving DecidableEq, Repr

/-- An endpoint descriptor as written in the config tables:
`{ name, route, method }` (cdk/lib/config.ts and the variant config in
the repository). -/
structure Endpoint where
  name : String
  route : String
  method : HttpMethod
deriving DecidableEq, Repr

/-- The `writeEndpoints` table of cdk/lib/config.ts (lines 32-44),
verbatim. -/
def writeEndpoints : List Endpoint :=
  [ { name := "upsert_points",
      route := "/collections/{name}/points",
      method := HttpMethod.PUT },
    { name := "delete_points",
      route := "/collections/{name}/points/delete",
      method := HttpMethod.DELETE } ]

/-- The `maxConcurrencyEndpoints` table of the variant config
(deadlock.sh lines 125-157), verbatim. -/
def maxConcurrencyEndpoints : List Endpoint :=
  [ { name := "search_points",
      route := "/collections/{name}/points/search",
      method := HttpMethod.POST },
    { name := "batch_search_points",
      route := "/collections/{name}/points/search/batch",
      method := HttpMethod.POST },
    { name := "search_point_groups",
      route := "/collections/{name}/points/search/groups",
      method := HttpMethod.POST },
    { name := "scroll_points",
      route := "/collections/{name}/points/scroll",
      method := HttpMethod.POST },
    { name := "get_points",
      route := "/collections/{name}/points",
      method := HttpMethod.POST },
    { name := "get_point",
      route := "/collections/{name}/points/{id}",
      method := HttpMethod.POST } ]

/-- A lambda integration: the function a route forwards to, carrying the
`reservedConcurrentExecutions` value of the CDK `Function` props
(`none` when the props omit it, i.e. concurrency bounded only by the
account ceiling). -/
structure Integration where
  name : String
  reservedConcurrency : Option Nat
deriving DecidableEq, Repr

/-- Execution pools of the specification. -/
inductive Pool where
  | writer
  | reader
deriving DecidableEq, Repr

/-- The pool an integration realizes: the Writer Pool is exactly the
single-reserved-concurrency lambda; every other function is an
elastically scaled reader. -/
def poolOf (i : Integration) : Pool :=
  if i.reservedConcurrency = some 1 then Pool.writer else Pool.reader

/-- Write-lambda integration of the config.ts stack variant:
`writeLambdaParams` sets `reservedConcurrentExecutions: 1`. -/
def writeIntegration : Integration :=
  { name := "WriteIntegration", reservedConcurrency := some 1 }

/-- Read-lambda integration (`readLambdaParams`, no reserved
concurrency). -/
def readIntegration : Integration :=
  { name := "ReadIntegration", reservedConcurrency := none }

/-- `SingleConcurrencyLambda` of the part_000 stack variant:
`reservedConcurrentExecutions: 1`, used as the default integration. -/
def singleConcurrencyIntegration : Integration :=
  { name := "SingleConcurrencyIntegraiton", reservedConcurrency := some 1 }

/-- `MaxConcurrencyLambda` of the part_000 stack variant: no reserved
concurrency, serves the whitelisted read endpoints. -/
def maxConcurrencyIntegration : Integration :=
  { name := "MaxConcurrencyIntegraiton", reservedConcurrency := none }

/-- `LsLambda` of the part_000 stack variant (a `NodejsFunction` with no
`reservedConcurrentExecutions` in its props). -/
def lsIntegration : Integration :=
  { name := "LsLambdaIntegration", reservedConcurrency := none }

/-- An inbound request, reduced to what classification inspects. -/
structure Request where
  method : HttpMethod
  path : String

/-- A registered route: a route key `(method, path template)` wired to an
integration (`new HttpRoute(..., routeKey: HttpRouteKey.with(route,
method), integration)`). -/
structure Route where
  method : HttpMethod
  route : String
  integration : Integration
deriving DecidableEq, Repr

/-- JavaScript `s.split(sep)` for a one-character separator, on the
character list: splitting never yields the empty list, and an empty
string yields `[[]]`. -/
def splitCharAux (sep : Char) : List Char → List Char → List (List Char)
  | [], acc => [acc.reverse]
  | c :: rest, acc =>
    if c = sep then acc.reverse :: splitCharAux sep rest []
    else splitCharAux sep rest (c :: acc)

/-- JavaScript `s.split(sep)` for a one-character separator. -/
def jsSplit (sep : Char) (s : String) : List String :=
  (splitCharAux sep s.data []).map (fun l => String.mk l)

/-- Whether a string starts with the given character (JavaScript
`s.startsWith(c)` for a one-character argument). -/
def headIs (c : Char) (s : String) : Bool :=
  match s.data with
  | [] => false
  | c0 :: _ => c0 = c

/-- Whether a string ends with the given character (JavaScript
`s.endsWith(c)` for a one-character argument). -/
def lastIs (c : Char) (s : String) : Bool :=
  match s.data.getLast? with
  | none => false
  | some c0 => c0 = c

/-- Modelled from the spec: a path-template segment matches a concrete
segment when it is a named parameter segment (written `{...}`), or when
it is a literal equal to the segment.  The matching algorithm itself is
implemented by the API gateway, outside this repository; the spec (§4.1)
fixes its contract. -/
def segMatches (t s : String) : Bool :=
  (headIs '{' t && lastIs '}' t) || t == s

/-- Modelled from the spec: a path matches a template exactly when the
slash-split segment lists have equal length and match pointwise
(literal-segment equality, parameter segments as single-segment
wildcards; no prefix or suffix matching). -/
def pathMatches (tmpl path : String) : Bool :=
  let ts := jsSplit '/' tmpl
  let ps := jsSplit '/' path
  ts.length == ps.length && (List.zip ts ps).all (fun q => segMatches q.1 q.2)

/-- A route matches a request when both the method and the path template
match (spec §4.1: matching is method-sensitive). -/
def matchesB (rt : Route) (req : Request) : Bool :=
  rt.method == req.method && pathMatches rt.route req.path

/-- Modelled from the spec: the classifier returns the integration of a
matching route, and the configured default integration when no route
matches (spec §4.1 `classify(method, path) -> pool_id` with a configured
default pool). -/
def classifyI : List Route → Integration → Request → Integration
  | [], dflt, _ => dflt
  | rt :: rest, dflt, req =>
    if matchesB rt req then rt.integration else classifyI rest dflt req

/-- Route registration as performed by the stack variants: one
`HttpRoute` per endpoint descriptor, unconditionally
(`writeEndpoints.forEach((endpoint) => new HttpRoute(...))`); no
duplicate check of any kind is made. -/
def registerRoutes (l : List Endpoint) : List (HttpMethod × String) :=
  l.map (fun e => (e.method, e.route))

/-- The representative route table of the specification (§6): the write
endpoints wired to the write integration, the read endpoints wired to
the read integration, and the debug-listing route wired to its own
integration. -/
def routeTable : List Route :=
  writeEndpoints.map (fun e =>
    { method := e.method, route := e.route, integration := writeIntegration })
  ++ maxConcurrencyEndpoints.map (fun e =>
    { method := e.method, route := e.route, integration := readIntegration })
  ++ [ { method := HttpMethod.GET, route := "/lsLambda",
         integration := lsIntegration } ]

/-- The routes registered by the part_000 stack variant: the
`maxConcurrencyEndpoints` wired to the max-concurrency integration
(part_000 lines 143-149) and the listing route `GET /lsLambda` wired to
the ls integration (lines 156-160); the default integration of its
`HttpApi` is the single-concurrency one (lines 123-125). -/
def part000Routes : List Route :=
  maxConcurrencyEndpoints.map (fun e =>
    { method := e.method, route := e.route,
      integration := maxConcurrencyIntegration })
  ++ [ { method := HttpMethod.GET, route := "/lsLambda",
         integration := lsIntegration } ]

/-- A deployment-stack variant, reduced to the
`reservedConcurrentExecutions` value of the function that serves the
mutating routes. -/
structure StackVariant where
  name : String
  writerCap : Option Nat
deriving DecidableEq, Repr

/-- The deployment-stack variants of the repository and the concurrency
cap each one places on the function serving mutating routes:
the stack embedded in config.ts uses `writeLambdaParams`
(`reservedConcurrentExecutions: 1`); cdk-stack.ts has the
`reservedConcurrentExecutions: 1` line commented out (line 84, with a
TODO to restore it); the part_000 stack reserves 1 on its
single-concurrency default lambda; the no-split variant in part_000
serves every route, writes included, with one unreserved lambda; the
part_001 stack reserves 1 on `QdrantWriteLambda`. -/
def deployStacks : List StackVariant :=
  [ { name := "config-ts-stack", writerCap := some 1 },
    { name := "cdk-stack-ts", writerCap := none },
    { name := "part000-split", writerCap := some 1 },
    { name := "part000-no-split", writerCap := none },
    { name := "part001", writerCap := some 1 } ]

/-!  The directory-introspection parser of cdk/lib/helpers/lsLambda.ts.

The handler splits the output of `ls -R` on newlines and folds the lines
through a mutable state: a nested object `result`, a reference
`currentDir` into it, and a stack `dirStack` of open directory objects.
Since every mutation goes through the top of the stack (`currentDir` is
the most recently pushed object, or `result` when the stack is empty),
the aliased in-place mutation is equivalent to a zipper: `current` holds
the children of the innermost open directory, and each stack context
holds the parent's children together with the key under which the open
directory will sit once it is closed. -/

/-- A value of the nested mapping built by the handler: a JavaScript
object maps keys to `null` (a file leaf) or to a nested object (a
directory). -/
inductive Entry where
  | file : Entry
  | dir : List (String × Entry) → Entry

/-- JavaScript property assignment `obj[k] = v` on an insertion-ordered
object: replace in place when the key exists, append otherwise. -/
def insertKey : List (String × Entry) → String → Entry → List (String × Entry)
  | [], k, v => [(k, v)]
  | (k0, v0) :: rest, k, v =>
    if k0 = k then (k, v) :: rest else (k0, v0) :: insertKey rest k v

/-- One open-directory context: the parent's children at descend time and
the key under which the directory being built will be stored. -/
abbrev Ctx := List (String × Entry) × String

/-- `while (dirStack.length > depth) dirStack.pop()`: close open
directories, writing each finished directory into its parent, until at
most `d` remain open.  The stack is innermost-first. -/
def popTo (d : Nat) : List Ctx → List (String × Entry) →
    List Ctx × List (String × Entry)
  | [], cur => ([], cur)
  | (pc, k) :: rest, cur =>
    if rest.length + 1 > d then popTo d rest (insertKey pc k (Entry.dir cur))
    else ((pc, k) :: rest, cur)

/-- Parser state: the open-directory stack and the children of the
innermost open directory (the children of `result` when the stack is
empty). -/
structure PState where
  stack : List Ctx
  current : List (String × Entry)

/-- One iteration of the `for (const line of lines)` loop of the handler:
a line ending in `:` computes `depth = dir.split("/").length - 1`, pops
the stack down to `depth`, and opens a new directory named by the last
path component inside the stack top (or the root); any other non-empty
line records a file (`null`) in the current directory; empty lines do
nothing. -/
def processLine (s : PState) (line : String) : PState :=
  if lastIs ':' line then
    let dir := String.mk line.data.dropLast
    let parts := jsSplit '/' dir
    let depth := parts.length - 1
    let p := popTo depth s.stack s.current
    { stack := (p.2, parts.getLastD "") :: p.1, current := [] }
  else if line == "" then s
  else { s with current := insertKey s.current line Entry.file }

/-- The whole handler on an already-split line list: fold the lines from
the empty root, then close every remaining open directory to read the
root object back. -/
def runLines (lines : List String) : List (String × Entry) :=
  let s := lines.foldl processLine { stack := [], current := [] }
  (popTo 0 s.stack s.current).2

/-- The handler on the raw `ls -R` stdout (`stdout.split("\n")`). -/
def lsParse (stdout : String) : List (String × Entry) :=
  runLines (jsSplit (Char.ofNat 10) stdout)

/-! Classifier lemmas. -/

theorem matchesB_method {rt : Route} {req : Request}
    (h : matchesB rt req = true) : rt.method = req.method := by
  unfold matchesB at h
  rw [Bool.and_eq_true] at h
  exact eq_of_beq h.1

/-- Any two routes of the representative table that share a method are
wired to integrations realizing the same pool (the writer routes are the
PUT and DELETE ones; every POST and GET route is a reader). -/
theorem routeTable_poolConsistent :
    ∀ a ∈ routeTable, ∀ b ∈ routeTable,
      a.method = b.method → poolOf a.integration = poolOf b.integration := by
  decide

/-- If some route of `l` matches the request and any two same-method
routes of `l` agree on their pool, the classifier lands in that pool,
whatever the order of `l` and whatever the default. -/
theorem classify_pool_aux (l : List Route) (dflt : Integration) (req : Request)
    (hcons : ∀ a ∈ l, ∀ b ∈ l,
      a.method = b.method → poolOf a.integration = poolOf b.integration)
    (d : Route) (hd : d ∈ l) (hm : matchesB d req = true) :
    poolOf (classifyI l dflt req) = poolOf d.integration := by
  induction l with
  | nil => cases hd
  | cons r0 rest ih =>
    by_cases h0 : matchesB r0 req = true
    · simp only [classifyI, h0, if_true]
      exact hcons r0 (List.mem_cons_self r0 rest) d hd
        (by rw [matchesB_method h0, matchesB_method hm])
    · have hne : d ≠ r0 := fun he => h0 (he ▸ hm)
      have hd2 : d ∈ rest := by
        rcases List.mem_cons.mp hd with he | ht
        · exact absurd he hne
        · exact ht
      simp only [classifyI, h0, if_false, Bool.false_eq_true]
      exact ih
        (fun a ha b hb => hcons a (List.mem_cons_of_mem _ ha)
          b (List.mem_cons_of_mem _ hb))
        hd2

/-- A request matched by no route of `l` is classified to the default. -/
theorem classify_no_match (l : List Route) (dflt : Integration) (req : Request)
    (h : l.all (fun d => !matchesB d req) = true) :
    classifyI l dflt req = dflt := by
  induction l with
  | nil => rfl
  | cons r0 rest ih =>
    rw [List.all_cons, Bool.and_eq_true] at h
    have h0 : matchesB r0 req = false := by
      cases hm : matchesB r0 req
      · rfl
      · rw [hm] at h; exact absurd h.1 (by decide)
    simp only [classifyI, h0, if_false, Bool.false_eq_true]
    exact ih h.2

/-! Parser lemmas: keys recorded at the top level of the result are never
lost.  `bkeys` reads the top-level keys as seen from the parser state:
the children of the outermost open context, or the current children when
no directory is open. -/

/-- The top-level keys visible from a parser state: the parent-children
list of the outermost (deepest-in-list) open context, or the current
children when the stack is empty. -/
def bkeys (st : List Ctx) (cur : List (String × Entry)) : List String :=
  match st.getLast? with
  | none => cur.map Prod.fst
  | some pk => pk.1.map Prod.fst

theorem insertKey_mem_mono {c : List (String × Entry)} {f : String}
    (k : String) (v : Entry) (h : f ∈ c.map Prod.fst) :
    f ∈ (insertKey c k v).map Prod.fst := by
  induction c with
  | nil => cases h
  | cons p rest ih =>
    obtain ⟨k0, v0⟩ := p
    by_cases he : k0 = k
    · subst he
      simp only [insertKey, if_pos rfl]
      simpa using h
    · simp only [insertKey, if_neg he, List.map_cons, List.mem_cons] at h ⊢
      rcases h with h | h
      · exact Or.inl h
      · exact Or.inr (ih h)

theorem insertKey_mem_self (c : List (String × Entry)) (k : String) (v : Entry) :
    k ∈ (insertKey c k v).map Prod.fst := by
  induction c with
  | nil => simp [insertKey]
  | cons p rest ih =>
    obtain ⟨k0, v0⟩ := p
    by_cases he : k0 = k
    · subst he; simp [insertKey]
    · simp only [insertKey, if_neg he, List.map_cons, List.mem_cons]
      exact Or.inr ih

theorem popTo_bkeys (d : Nat) (st : List Ctx) (cur : List (String × Entry))
    (f : String) (h : f ∈ bkeys st cur) :
    f ∈ bkeys (popTo d st cur).1 (popTo d st cur).2 := by
  induction st generalizing cur with
  | nil => exact h
  | cons p rest ih =>
    obtain ⟨pc, k⟩ := p
    by_cases hgt : rest.length + 1 > d
    · simp only [popTo, if_pos hgt]
      apply ih
      cases rest with
      | nil => simpa [bkeys] using insertKey_mem_mono k (Entry.dir cur) (by simpa [bkeys] using h)
      | cons q t => simpa [bkeys, List.getLast?_cons_cons] using h
    · simpa [popTo, if_neg hgt] using h

theorem processLine_bkeys (s : PState) (line : String) (f : String)
    (h : f ∈ bkeys s.stack s.current) :
    f ∈ bkeys (processLine s line).stack (processLine s line).current := by
  unfold processLine
  by_cases hc : lastIs ':' line = true
  · simp only [hc, if_true]
    have hp := popTo_bkeys (((jsSplit '/' (String.mk line.data.dropLast)).length - 1))
      s.stack s.current f h
    cases hq : (popTo ((jsSplit '/' (String.mk line.data.dropLast)).length - 1)
        s.stack s.current).1 with
    | nil =>
      rw [hq] at hp
      simpa [bkeys] using hp
    | cons q t =>
      rw [hq] at hp
      simpa [bkeys, List.getLast?_cons_cons] using hp
  · rw [Bool.not_eq_true] at hc
    simp only [hc, Bool.false_eq_true, if_false]
    by_cases he : line = ""
    · simpa [he] using h
    · have hb : (line == "") = false := beq_eq_false_iff_ne.mpr he
      simp only [hb, Bool.false_eq_true, if_false]
      cases hst : s.stack with
      | nil =>
        rw [hst] at h
        simpa [bkeys] using insertKey_mem_mono line Entry.file (by simpa [bkeys] using h)
      | cons q t =>
        rw [hst] at h
        simpa [bkeys] using h

theorem foldl_bkeys (lines : List String) (s : PState) (f : String)
    (h : f ∈ bkeys s.stack s.current) :
    f ∈ bkeys (lines.foldl processLine s).stack
      (lines.foldl processLine s).current := by
  induction lines generalizing s with
  | nil => simpa using h
  | cons l rest ih => exact ih (processLine s l) (processLine_bkeys s l f h)

theorem foldl_stack_no_colon (pre : List String) (s : PState)
    (h : ∀ l ∈ pre, lastIs ':' l = false) :
    (pre.foldl processLine s).stack = s.stack := by
  induction pre generalizing s with
  | nil => rfl
  | cons l rest ih =>
    have hl : lastIs ':' l = false := h l (List.mem_cons_self l rest)
    have hstep : (processLine s l).stack = s.stack := by
      unfold processLine
      simp only [hl, Bool.false_eq_true, if_false]
      by_cases he : l = ""
      · simp [he]
      · have hb : (l == "") = false := beq_eq_false_iff_ne.mpr he
        simp [hb]
    rw [List.foldl_cons, ih (processLine s l) (fun x hx => h x (List.mem_cons_of_mem _ hx)), hstep]

theorem foldl_current_mono_no_colon (pre : List String) (s : PState) (f : String)
    (h : ∀ l ∈ pre, lastIs ':' l = false)
    (hf : f ∈ s.current.map Prod.fst) :
    f ∈ (pre.foldl processLine s).current.map Prod.fst := by
  induction pre generalizing s with
  | nil => simpa using hf
  | cons l rest ih =>
    have hl : lastIs ':' l = false := h l (List.mem_cons_self l rest)
    apply ih (processLine s l) (fun x hx => h x (List.mem_cons_of_mem _ hx))
    unfold processLine
    simp only [hl, Bool.false_eq_true, if_false]
    by_cases he : l = ""
    · simpa [he] using hf
    · have hb : (l == "") = false := beq_eq_false_iff_ne.mpr he
      simpa [hb] using insertKey_mem_mono l Entry.file hf

theorem foldl_adds_file_no_colon (pre : List String) (s : PState) (f : String)
    (h : ∀ l ∈ pre, lastIs ':' l = false)
    (hf : f ∈ pre) (hne : f ≠ "") :
    f ∈ (pre.foldl processLine s).current.map Prod.fst := by
  induction pre generalizing s with
  | nil => cases hf
  | cons l rest ih =>
    rcases List.mem_cons.mp hf with he | ht
    · subst he
      have hl : lastIs ':' f = false := h f (List.mem_cons_self f rest)
      apply foldl_current_mono_no_colon rest (processLine s f) f
        (fun x hx => h x (List.mem_cons_of_mem _ hx))
      unfold processLine
      have hb : (f == "") = false := beq_eq_false_iff_ne.mpr hne
      simp only [hl, hb, Bool.false_eq_true, if_false]
      exact insertKey_mem_self s.current f Entry.file
    · exact ih (processLine s l) (fun x hx => h x (List.mem_cons_of_mem _ hx)) ht

theorem popTo_zero_stack (st : List Ctx) (cur : List (String × Entry)) :
    (popTo 0 st cur).1 = [] := by
  induction st generalizing cur with
  | nil => rfl
  | cons p rest ih =>
    obtain ⟨pc, k⟩ := p
    simp only [popTo, if_pos (Nat.succ_pos rest.length)]
    exact ih (insertKey pc k (Entry.dir cur))

/-- A table holding two descriptors with distinct names but the same
`(method, route)` pair, used to probe the absence of a construction-time
uniqueness check. -/
def dupEndpoints : List Endpoint :=
  [ { name := "upsert_points",
      route := "/collections/{name}/points",
      method := HttpMethod.PUT },
    { name := "upsert_points_again",
      route := "/collections/{name}/points",
      method := HttpMethod.PUT } ]

/-! The claims. -/

/-- C1: the claim states that in every deployment-stack variant the
writer function reserves a concurrency of exactly 1.  Evaluating the
variants shows two that do not: cdk-stack.ts leaves
`reservedConcurrentExecutions` out (the line is commented, with a TODO),
and the no-split variant in part_000 serves writes with an unreserved
lambda — while the remaining three variants do reserve 1. -/
theorem c1_writer_cap_variants :
    deployStacks.map (fun v => (v.name, v.writerCap)) =
      [("config-ts-stack", some 1), ("cdk-stack-ts", none),
       ("part000-split", some 1), ("part000-no-split", none),
       ("part001", some 1)] ∧
    deployStacks.all (fun v => v.writerCap == some 1) = false :=
  ⟨rfl, rfl⟩

/-- C2: for every descriptor of the route table, a request whose method
and path match the descriptor is classified to the descriptor's pool,
for any iteration order of the table (any permutation) and any
configured default. -/
theorem c2_descriptor_pool (l : List Route) (hperm : l.Perm routeTable)
    (dflt : Integration) (d : Route) (hd : d ∈ l) (req : Request)
    (hm : matchesB d req = true) :
    poolOf (classifyI l dflt req) = poolOf d.integration := by
  apply classify_pool_aux l dflt req _ d hd hm
  intro a ha b hb hab
  exact routeTable_poolConsistent a (hperm.mem_iff.mp ha)
    b (hperm.mem_iff.mp hb) hab

/-- Witness for C2 at a concrete descriptor and request: the PUT upsert
route matches `PUT /collections/a/points` and classification lands in
its (writer) pool. -/
theorem c2_descriptor_pool_witness :
    poolOf (classifyI routeTable readIntegration
      ⟨HttpMethod.PUT, "/collections/a/points"⟩) =
    poolOf writeIntegration :=
  c2_descriptor_pool routeTable (List.Perm.refl _) readIntegration
    { method := HttpMethod.PUT, route := "/collections/{name}/points",
      integration := writeIntegration }
    (by decide) ⟨HttpMethod.PUT, "/collections/a/points"⟩ (by decide)

/-- C3 counterexample: a table with two descriptors sharing the same
`(method, path_template)` pair is not rejected — the registration loop
of the stacks registers both routes, producing the duplicated route key
twice; no construction-time duplicate detection exists in the code. -/
theorem c3_counterexample :
    ((dupEndpoints.map (fun e => (e.method, e.route))).Nodup → False) ∧
    registerRoutes dupEndpoints =
      [(HttpMethod.PUT, "/collections/{name}/points"),
       (HttpMethod.PUT, "/collections/{name}/points")] :=
  ⟨by decide, rfl⟩

/-- C3 amended: route registration performs no duplicate check at
construction time — every descriptor of any table is registered,
duplicates included; the concrete tables merely happen to be free of
duplicate `(method, route)` pairs. -/
theorem c3_no_construction_check :
    (∀ l : List Endpoint, (registerRoutes l).length = l.length) ∧
    (writeEndpoints.map (fun e => (e.method, e.route))).Nodup ∧
    (maxConcurrencyEndpoints.map (fun e => (e.method, e.route))).Nodup :=
  ⟨fun l => List.length_map l _, by decide, by decide⟩

/-- C4: the claim states that a directory header line is nested at the
depth given by the slash-delimited components of its prefix relative to
the tree root.  The code truncates the stack with the absolute-path
segment count (`dir.split("/").length - 1`), which for the handler's own
input shape (`ls -R /mnt/efs`, absolute headers) always exceeds the
stack height, so the stack is never popped and sibling directories are
nested inside one another: `/mnt/efs/y` ends up inside `/mnt/efs/x`
instead of beside it; likewise a first header `a/b/c:` lands at the top
level rather than at depth 2. -/
theorem c4_parser_misnests :
    runLines ["/mnt/efs:", "/mnt/efs/x:", "/mnt/efs/y:", "f2"] =
      [("efs", Entry.dir
        [("x", Entry.dir [("y", Entry.dir [("f2", Entry.file)])])])] ∧
    runLines ["a/b/c:", "f"] = [("c", Entry.dir [("f", Entry.file)])] ∧
    (runLines ["a/b/c:", "f"]).map Prod.fst = ["c"] :=
  ⟨rfl, rfl, rfl⟩

/-- C5: a request matched by no descriptor of the route table is
classified to the configured default integration, whatever that
configured default is; the classifier is a pure function, so the outcome
is the same on every run. -/
theorem c5_unmatched_default (req : Request) (dflt : Integration)
    (h : routeTable.all (fun d => !matchesB d req) = true) :
    classifyI routeTable dflt req = dflt :=
  classify_no_match routeTable dflt req h

/-- Witness for C5: `GET /collections/demo` matches no descriptor and is
classified to the configured read default. -/
theorem c5_unmatched_default_witness :
    classifyI routeTable readIntegration
      ⟨HttpMethod.GET, "/collections/demo"⟩ = readIntegration :=
  c5_unmatched_default ⟨HttpMethod.GET, "/collections/demo"⟩
    readIntegration (by decide)

/-- C6: classification is method-sensitive — on any path matching the
template `/collections/{name}/points`, a PUT request is classified to
the writer pool (the upsert descriptor) and a POST request to the reader
pool (the fetch-by-ids descriptor). -/
theorem c6_method_sensitive (path : String)
    (h : pathMatches "/collections/{name}/points" path = true) :
    poolOf (classifyI routeTable readIntegration
      ⟨HttpMethod.PUT, path⟩) = Pool.writer ∧
    poolOf (classifyI routeTable readIntegration
      ⟨HttpMethod.POST, path⟩) = Pool.reader := by
  constructor
  · have hc := classify_pool_aux routeTable readIntegration
      ⟨HttpMethod.PUT, path⟩ routeTable_poolConsistent
      { method := HttpMethod.PUT, route := "/collections/{name}/points",
        integration := writeIntegration }
      (by decide) (by simp [matchesB, h])
    simpa using hc
  · have hc := classify_pool_aux routeTable readIntegration
      ⟨HttpMethod.POST, path⟩ routeTable_poolConsistent
      { method := HttpMethod.POST, route := "/collections/{name}/points",
        integration := readIntegration }
      (by decide) (by simp [matchesB, h])
    simpa using hc

/-- Witness for C6 at the concrete path `/collections/demo/points`. -/
theorem c6_method_sensitive_witness :
    poolOf (classifyI routeTable readIntegration
      ⟨HttpMethod.PUT, "/collections/demo/points"⟩) = Pool.writer ∧
    poolOf (classifyI routeTable readIntegration
      ⟨HttpMethod.POST, "/collections/demo/points"⟩) = Pool.reader :=
  c6_method_sensitive "/collections/demo/points" (by decide)

/-- C7: template matching requires exact segment-count equality (any
match forces equal slash-split lengths), and on the spec's examples
`/collections/{name}/points/{id}` matches `/collections/demo/points/42`
but neither `/collections/demo/points` nor
`/collections/demo/points/42/extra`. -/
theorem c7_segment_matching :
    (∀ t p : String, pathMatches t p = true →
      (jsSplit '/' t).length = (jsSplit '/' p).length) ∧
    pathMatches "/collections/{name}/points/{id}"
      "/collections/demo/points/42" = true ∧
    pathMatches "/collections/{name}/points/{id}"
      "/collections/demo/points" = false ∧
    pathMatches "/collections/{name}/points/{id}"
      "/collections/demo/points/42/extra" = false := by
  refine ⟨?_, by decide, by decide, by decide⟩
  intro t p h
  unfold pathMatches at h
  rw [Bool.and_eq_true] at h
  exact eq_of_beq h.1

/-- Witness for C7's universally quantified part at concrete strings. -/
theorem c7_segment_matching_witness :
    (jsSplit '/' "/x/{a}").length = (jsSplit '/' "/x/y").length :=
  c7_segment_matching.1 "/x/{a}" "/x/y" (by decide)

/-- C8: the directory-introspection route `GET /lsLambda` is wired to
its own integration, whose function reserves no concurrency (it is not
the single-concurrency writer), and it realizes the reader pool — both
in the part_000 stack that defines it and in the representative route
table. -/
theorem c8_ls_reader :
    classifyI part000Routes singleConcurrencyIntegration
      ⟨HttpMethod.GET, "/lsLambda"⟩ = lsIntegration ∧
    lsIntegration.reservedConcurrency = none ∧
    poolOf lsIntegration = Pool.reader ∧
    lsIntegration ≠ singleConcurrencyIntegration ∧
    poolOf (classifyI routeTable readIntegration
      ⟨HttpMethod.GET, "/lsLambda"⟩) = Pool.reader := by
  refine ⟨by decide, rfl, rfl, by decide, by decide⟩

/-- C9: the concrete endpoint tables are duplicate-free by construction:
across the concatenation of `writeEndpoints` and
`maxConcurrencyEndpoints` (hence also within each list) no two
descriptors share a `(method, route)` pair, and all names are pairwise
distinct. -/
theorem c9_tables_nodup :
    ((writeEndpoints ++ maxConcurrencyEndpoints).map
      (fun e => (e.method, e.route))).Nodup ∧
    ((writeEndpoints ++ maxConcurrencyEndpoints).map Endpoint.name).Nodup := by
  refine ⟨by decide, by decide⟩

/-- C10: the introspection parser is a total function of the line list
(`runLines` is a Lean function, defined for every input); empty lines
leave the state untouched, and a non-empty file line occurring before
every directory-header line ends up as a key of the top level of the
returned mapping. -/
theorem c10_parser_total_toplevel :
    (∀ s : PState, processLine s "" = s) ∧
    (∀ (pre post : List String) (f : String), f ∈ pre → f ≠ "" →
      (∀ l ∈ pre, lastIs ':' l = false) →
      f ∈ (runLines (pre ++ post)).map Prod.fst) := by
  constructor
  · intro s; rfl
  · intro pre post f hf hne hnc
    unfold runLines
    rw [List.foldl_append]
    set s1 := pre.foldl processLine { stack := [], current := [] } with hs1
    have hstack : s1.stack = [] :=
      foldl_stack_no_colon pre { stack := [], current := [] } hnc
    have hcur : f ∈ s1.current.map Prod.fst :=
      foldl_adds_file_no_colon pre { stack := [], current := [] } f hnc hf hne
    have hb1 : f ∈ bkeys s1.stack s1.current := by
      rw [hstack]; simpa [bkeys] using hcur
    have hb2 := foldl_bkeys post s1 f hb1
    set s2 := post.foldl processLine s1 with hs2
    have hb3 := popTo_bkeys 0 s2.stack s2.current f hb2
    have hz := popTo_zero_stack s2.stack s2.current
    rw [hz] at hb3
    simpa [bkeys] using hb3

/-- Witness for C10: the file line `loose` precedes the only directory
header and is a top-level key of the result. -/
theorem c10_parser_total_toplevel_witness :
    "loose" ∈ (runLines (["loose"] ++ ["d:", "g"])).map Prod.fst :=
  c10_parser_total_toplevel.2 ["loose"] ["d:", "g"] "loose"
    (by decide) (by decide) (by decide)

end ServerlessQdrant
